import Mathlib

/-!
Shallow embedding of `src/msr-tools/core-port-stat.cpp`, a tool that programs
per-core performance-monitoring counters (PMCs) over MSR device files and
reports per-port utilization percentages once per second.

Machine words of the C++ source (u_int64_t, int bit-slices) are modelled as
`Nat`/`Int` with explicit `% 2^w` where overflow matters.  CPUID results and
the OS read/write primitives are inputs of the model (the source reads them
from hardware); everything downstream of those inputs is translated directly
from the source.  Side-effecting phases of `main` (exits, MSR opens,
event-select writes) are modelled as explicit action traces.
-/

namespace CorePortStat

/-- Hardware event definition: `pmc_event_type_t { int event; int umask; }`. -/
structure pmc_event_type_t where
  event : ℕ
  umask : ℕ
deriving DecidableEq, Repr

/-- The fixed ordered event table `UOPS_DISPATCHED_PORT` from the source. -/
def UOPS_DISPATCHED_PORT : List pmc_event_type_t :=
  [⟨0xa1, 0x01⟩, ⟨0xa1, 0x02⟩, ⟨0xa1, 0x0c⟩, ⟨0xa1, 0x30⟩, ⟨0xa1, 0x40⟩, ⟨0xa1, 0x80⟩]

/-- General-purpose counter register addresses `IA32_PMC` from the source. -/
def IA32_PMC : List ℕ :=
  [0xc1, 0xc2, 0xc3, 0xc4, 0xc5, 0xc6, 0xc7, 0xc8]

/-- Event-select register addresses `IA32_PERFEVTSEL` from the source. -/
def IA32_PERFEVTSEL : List ℕ :=
  [0x186, 0x187, 0x188, 0x189, 0x18a, 0x18b, 0x18c, 0x18d]

/-- Numeric value of a one-bit C bit-field holding a `bool`. -/
def bitVal (b : Bool) : ℕ :=
  cond b 1 0

/-- The packed 8-byte `pmc_config_t` struct, field for field.  Each C
bit-field assignment truncates to the field width, hence the `% 2^w` in
`pmc_config_t.encode` below. -/
structure pmc_config_t where
  event_select : ℕ
  unit_mask : ℕ
  user_mode : Bool
  operating_system_mode : Bool
  edge_detect : Bool
  pin_control : Bool
  interrupt_enable : Bool
  any_thread : Bool
  enable_counters : Bool
  invert_counter_mask : Bool
  counter_mask : ℕ
  reserved : ℕ
deriving DecidableEq, Repr

/-- The 64-bit value obtained by reinterpreting a `pmc_config_t` as
`u_int64_t` (`*(u_int64_t*)&conf`): little-endian packed bit-fields, in
declaration order from bit 0 upward (static_assert gives sizeof == 8). -/
def pmc_config_t.encode (c : pmc_config_t) : ℕ :=
  c.event_select % 2 ^ 8
    + c.unit_mask % 2 ^ 8 * 2 ^ 8
    + bitVal c.user_mode * 2 ^ 16
    + bitVal c.operating_system_mode * 2 ^ 17
    + bitVal c.edge_detect * 2 ^ 18
    + bitVal c.pin_control * 2 ^ 19
    + bitVal c.interrupt_enable * 2 ^ 20
    + bitVal c.any_thread * 2 ^ 21
    + bitVal c.enable_counters * 2 ^ 22
    + bitVal c.invert_counter_mask * 2 ^ 23
    + c.counter_mask % 2 ^ 8 * 2 ^ 24
    + c.reserved % 2 ^ 32 * 2 ^ 32

/-- The value written by the configure loop for one event: `conf` is
zeroed with memset, then unit_mask, event_select, user_mode,
operating_system_mode, any_thread and enable_counters are assigned. -/
def configValue (port : pmc_event_type_t) : ℕ :=
  pmc_config_t.encode
    { event_select := port.event
      unit_mask := port.umask
      user_mode := true
      operating_system_mode := true
      edge_detect := false
      pin_control := false
      interrupt_enable := false
      any_thread := true
      enable_counters := true
      invert_counter_mask := false
      counter_mask := 0
      reserved := 0 }

/-- Result of `pmcinfo()`: the fields decoded from CPUID leaf 0x0a, EAX. -/
structure pmc_info_t where
  version_id : ℕ
  num_pmc_per_thread : ℕ
  pmc_bitwidth : ℕ
deriving DecidableEq, Repr

/-- The function `pmcinfo()` as a function of the CPUID.0AH EAX value
(the source obtains `rax` with inline asm; the decoding is translated
verbatim). -/
def pmcinfo (rax : ℕ) : pmc_info_t :=
  { version_id := rax &&& 0xff
    num_pmc_per_thread := rax >>> 8 &&& 0xff
    pmc_bitwidth := rax >>> 16 &&& 0xff }

/-- The function `cpu_family()` as a function of the CPUID.01H EAX value. -/
def cpu_family (rax : ℕ) : ℕ :=
  let family_id := rax >>> 8 &&& 0x0f
  let extended_family_id := rax >>> 20 &&& 0xff
  if family_id ≠ 0x0f then family_id else extended_family_id + family_id

/-- The function `cpu_model()` as a function of the CPUID.01H EAX value. -/
def cpu_model (rax : ℕ) : ℕ :=
  let family_id := rax >>> 8 &&& 0x0f
  let model_id := rax >>> 4 &&& 0x0f
  let extended_model_id := rax >>> 16 &&& 0x0f
  if family_id = 0x06 ∨ family_id = 0x0f then
    extended_model_id * 2 ^ 4 + model_id
  else
    model_id

/-- Unsigned 64-bit subtraction `a - b` on `u_int64_t` operands, as used for
`tsc - tsc0` and `value - value0` in the sampling loop: the mathematical
difference reduced modulo 2^64. -/
def sub64 (a b : ℕ) : ℕ :=
  (((a : ℤ) - (b : ℤ)) % (2 ^ 64 : ℤ)).toNat

/-- The per-port figure printed by `fprintf("%6.2f%%", (value - value0) /
(double) hz * 100)`, with the real-number content of the expression kept
exact in `ℚ` (the `%6.2f` display rounding is not part of the model). -/
def tickUtilization (value value0 hz : ℕ) : ℚ :=
  (sub64 value value0 : ℚ) / (hz : ℚ) * 100

/-- One parsed `/proc/cpuinfo` processor record, restricted to the fields
`main` actually consumes: `processor` (id), `core id`, `flags`. -/
structure cpu_t where
  id : ℕ
  core_id : ℕ
  flags : List String
deriving DecidableEq, Repr

/-- The hardware/OS inputs that determine the behaviour of `main` up to the
end of its configure loop: the two CPUID leaves and the parsed cpuinfo
records. -/
structure machine_t where
  leaf1_eax : ℕ
  leaf0a_eax : ℕ
  cpus : List cpu_t
deriving Repr

/-- Number of cores computed in `main`:
`std::accumulate(cpus, 0, max of core_id) + 1`. -/
def num_cores_of (cpus : List cpu_t) : ℕ :=
  cpus.foldl (fun a c => max a c.core_id) 0 + 1

/-- Size of `core_msrs[core]` after the open loop: one `msr_t` is pushed
per cpuinfo record whose `core_id` equals `core`. -/
def coreSizeOf (cpus : List cpu_t) (core : ℕ) : ℕ :=
  (cpus.filter fun c => c.core_id == core).length

/-- Number of distinct `core id` values among the cpuinfo records (the
quantity the specification says `num_cores` is; compared against
`num_cores_of`, which is what the source computes). -/
def distinctCoreIds (cpus : List cpu_t) : ℕ :=
  ((cpus.map cpu_t.core_id).dedup).length

/-- Whether some cpuinfo record populates the given dense core index. -/
def corePopulated (cpus : List cpu_t) (core : ℕ) : Bool :=
  cpus.any fun c => c.core_id == core

/-- Observable actions of `main` from the compatibility gate through the
configure loop. -/
inductive action_t where
  | exit_unsupported (family model : ℕ)
  | exit_no_constant_tsc
  | open_msr (cpu : ℕ)
  | wrmsr_evtsel (core cpu_idx reg value : ℕ)
  | index_out_of_bounds (core cpu_idx : ℕ)
deriving DecidableEq, Repr

/-- The 64-bit configuration value the configure loop builds for event
index `i` of the table. -/
def portValue (i : ℕ) : ℕ :=
  configValue (UOPS_DISPATCHED_PORT.getD i ⟨0, 0⟩)

/-- The event-select write issued for event index `i` on a given core:
`core_msrs[core][i / num_pmc_per_thread].wrmsr(IA32_PERFEVTSEL[i %
num_pmc_per_thread], conf)`. -/
def mkEvtselWrite (cpt core i : ℕ) : action_t :=
  .wrmsr_evtsel core (i / cpt) (IA32_PERFEVTSEL.getD (i % cpt) 0) (portValue i)

/-- The configure loop over its (core, event-index) iteration sequence.
`core_msrs[core][i / cpt]` is a `std::vector::operator[]` access: when the
index is within the vector the write happens; when it is not, the source
has undefined behaviour, which the model records as a terminal
`index_out_of_bounds` action (nothing after that point is modelled). -/
def configSteps (cpt : ℕ) (coreSize : ℕ → ℕ) : List (ℕ × ℕ) → List action_t
  | [] => []
  | (core, i) :: rest =>
    if i / cpt < coreSize core then
      mkEvtselWrite cpt core i :: configSteps cpt coreSize rest
    else
      [.index_out_of_bounds core (i / cpt)]

/-- Iteration sequence of the configure loop: all (core, event-index)
pairs, outer loop over cores, inner loop over the event table. -/
def configurePairs (num_cores : ℕ) : List (ℕ × ℕ) :=
  (List.range num_cores).flatMap fun core =>
    (List.range UOPS_DISPATCHED_PORT.length).map fun i => (core, i)

/-- The compatibility-gate condition of `main`:
`info.version_id < 3 || cpu_family() != 6 || cpu_model() != 42`. -/
def gateFails (version_id family model : ℕ) : Bool :=
  version_id < 3 || family != 6 || model != 42

/-- Matcher: is `a` an event-select write on the given core, logical
processor offset and register (any value)? -/
def action_t.isEvtselWriteTo (a : action_t) (core cpu_idx reg : ℕ) : Bool :=
  match a with
  | .wrmsr_evtsel c idx r _ => c == core && idx == cpu_idx && r == reg
  | _ => false

/-- The action trace of `main` from the compatibility gate through the end
of the configure loop: gate check, `constant_tsc` check on `cpus[0]`, one
MSR open per cpuinfo record (in record order), then the configure loop. -/
def mainTrace (m : machine_t) : List action_t :=
  let family := cpu_family m.leaf1_eax
  let model := cpu_model m.leaf1_eax
  let info := pmcinfo m.leaf0a_eax
  if gateFails info.version_id family model then
    [.exit_unsupported family model]
  else if !((m.cpus.headD ⟨0, 0, []⟩).flags.contains "constant_tsc") then
    [.exit_no_constant_tsc]
  else
    (m.cpus.map fun c => action_t.open_msr c.id)
      ++ configSteps (pmcinfo m.leaf0a_eax).num_pmc_per_thread
          (coreSizeOf m.cpus) (configurePairs (num_cores_of m.cpus))

/-- The `msr_t::wrmsr` method, parameterized by the OS `pwrite` primitive
(arguments: register offset, value, byte count; result: the `ssize_t`
return).  Mirrors `if (pwrite(fd, &val, 8, reg) != 8) throw`. -/
def wrmsr (pwrite : ℕ → ℕ → ℕ → ℤ) (reg val : ℕ) : Except String Unit :=
  if pwrite reg val 8 ≠ 8 then Except.error "failed write" else Except.ok ()

/-- The `msr_t::rdmsr` method, parameterized by the OS `pread` primitive
(arguments: register offset, byte count; result: the `ssize_t` return and
the 64-bit buffer contents).  Mirrors
`if (pread(fd, &val, 8, reg) != 8) throw; return val`. -/
def rdmsr (pread : ℕ → ℕ → ℤ × ℕ) (reg : ℕ) : Except String ℕ :=
  if (pread reg 8).1 ≠ 8 then Except.error "failed read"
  else Except.ok (pread reg 8).2

/-- Concrete machine for the infeasible-plan scenario: CPUID.01H EAX
0x206a7 (family 6, model 42), CPUID.0AH EAX 0x300403 (version 3, 4
counters per thread, width 48), a single logical processor with
`constant_tsc`, so threads_per_core = 1 while the event table needs
offsets 0 and 1. -/
def machineOneThread : machine_t :=
  { leaf1_eax := 0x206a7
    leaf0a_eax := 0x300403
    cpus := [⟨0, 0, ["constant_tsc"]⟩] }

/-- Concrete machine whose CPUID.01H EAX 0x306a9 decodes to family 6,
model 58: the compatibility gate must reject it. -/
def machineIvb : machine_t :=
  { leaf1_eax := 0x306a9
    leaf0a_eax := 0x300403
    cpus := [⟨0, 0, ["constant_tsc"]⟩] }

/-- Cpuinfo records whose core ids are 0 and 2: not contiguous from 0. -/
def cpusGap : List cpu_t :=
  [⟨0, 0, []⟩, ⟨1, 2, []⟩]

/-- Cpuinfo records with contiguous core ids 0 and 1 (two threads each). -/
def cpusContig : List cpu_t :=
  [⟨0, 0, []⟩, ⟨1, 1, []⟩, ⟨2, 0, []⟩, ⟨3, 1, []⟩]

/-! ## Theorems -/

/-- Bit-slice form of an 8-bit mask. -/
theorem and_255 (x : ℕ) : x &&& 255 = x % 2 ^ 8 := by
  have h := Nat.and_pow_two_sub_one_eq_mod x 8
  norm_num at h ⊢
  exact h

/-- Bit-slice form of a 4-bit mask. -/
theorem and_15 (x : ℕ) : x &&& 15 = x % 2 ^ 4 := by
  have h := Nat.and_pow_two_sub_one_eq_mod x 4
  norm_num at h ⊢
  exact h

/-- C3: the reported CPU family is the base family field (bits [11:8] of
CPUID.01H EAX) when that field is not 0x0f, and base family field plus
extended family field (bits [27:20]) exactly when the base field is 0x0f.
As a Lean function of the CPUID output, `cpu_family` is deterministic and
side-effect free. -/
theorem cpu_family_spec (rax : ℕ) :
    cpu_family rax =
      if rax / 2 ^ 8 % 2 ^ 4 = 0x0f then rax / 2 ^ 20 % 2 ^ 8 + 0x0f
      else rax / 2 ^ 8 % 2 ^ 4 := by
  simp only [cpu_family, Nat.shiftRight_eq_div_pow, and_15, and_255]
  rcases eq_or_ne (rax / 256 % 16) 15 with h | h <;> simp [h]

/-- C9: the reported CPU model is (extended_model_id << 4) + model_id,
with model_id = bits [7:4] and extended_model_id = bits [19:16] of
CPUID.01H EAX, exactly when the base family field (bits [11:8]) is 0x06
or 0x0f; for any other base family it is the 4-bit model_id unchanged. -/
theorem cpu_model_spec (rax : ℕ) :
    cpu_model rax =
      if rax / 2 ^ 8 % 2 ^ 4 = 0x06 ∨ rax / 2 ^ 8 % 2 ^ 4 = 0x0f then
        rax / 2 ^ 16 % 2 ^ 4 * 2 ^ 4 + rax / 2 ^ 4 % 2 ^ 4
      else rax / 2 ^ 4 % 2 ^ 4 := by
  simp only [cpu_model, Nat.shiftRight_eq_div_pow, and_15]

/-- C4: `pmcinfo` decodes CPUID.0AH EAX as version = bits [7:0],
counters per thread = bits [15:8], counter bit width = bits [23:16]; in
particular EAX = 0xa10305 yields version 5, 3 counters per thread and
bit width 0xa1. -/
theorem pmcinfo_spec (rax : ℕ) :
    pmcinfo rax = ⟨rax % 2 ^ 8, rax / 2 ^ 8 % 2 ^ 8, rax / 2 ^ 16 % 2 ^ 8⟩ ∧
    pmcinfo 0xa10305 = ⟨5, 3, 0xa1⟩ := by
  constructor
  · simp only [pmcinfo, Nat.shiftRight_eq_div_pow, and_255]
  · decide

/-- C2: the per-counter delta of the sampling loop is the unsigned modular
difference (current - previous) mod 2^64, a non-negative count below 2^64;
it is the true elapsed count both without wraparound and when the counter
wrapped exactly once within the interval, and the emitted utilization is
that delta divided by the elapsed cycle count, times 100. -/
theorem tick_delta_spec (current previous hz : ℕ)
    (hc : current < 2 ^ 64) (hp : previous < 2 ^ 64) :
    ((sub64 current previous : ℤ) = ((current : ℤ) - previous) % 2 ^ 64 ∧
      sub64 current previous < 2 ^ 64) ∧
    (previous ≤ current →
      sub64 current previous = current - previous ∧
      tickUtilization current previous hz =
        ((current - previous : ℕ) : ℚ) / hz * 100) ∧
    (current < previous →
      sub64 current previous = current + 2 ^ 64 - previous ∧
      tickUtilization current previous hz =
        ((current + 2 ^ 64 - previous : ℕ) : ℚ) / hz * 100) := by
  have hpos : (0 : ℤ) < 2 ^ 64 := by norm_num
  have hmod : (0 : ℤ) ≤ ((current : ℤ) - previous) % 2 ^ 64 :=
    Int.emod_nonneg _ (by norm_num)
  have hcast : (sub64 current previous : ℤ) = ((current : ℤ) - previous) % 2 ^ 64 := by
    unfold sub64
    exact Int.toNat_of_nonneg hmod
  have hlt : sub64 current previous < 2 ^ 64 := by
    have := Int.emod_lt_of_pos ((current : ℤ) - previous) hpos
    omega
  refine ⟨⟨hcast, hlt⟩, fun hle => ?_, fun hgt => ?_⟩
  · have hval : sub64 current previous = current - previous := by omega
    exact ⟨hval, by simp [tickUtilization, hval]⟩
  · have hval : sub64 current previous = current + 2 ^ 64 - previous := by omega
    exact ⟨hval, by simp [tickUtilization, hval]⟩

/-- Auxiliary: or-ing one high bit above a smaller value is addition. -/
theorem lor_two_pow_of_lt {x i : ℕ} (h : x < 2 ^ i) : x ||| 2 ^ i = x + 2 ^ i := by
  have h1 := Nat.mul_add_lt_is_or h 1
  rw [mul_one] at h1
  rw [Nat.lor_comm, ← h1, Nat.add_comm]

/-- C10: the CounterConfigRegister encoding is 8 bytes with event_select
in bits [7:0], unit_mask in bits [15:8], user-mode bit 16, kernel-mode
bit 17, edge-detect bit 18, pin-control bit 19, interrupt-enable bit 20,
any-thread bit 21, global-enable bit 22, invert bit 23, counter-mask bits
[31:24] and the upper 32 bits reserved; hence the value the configure loop
writes for an event with code E and unit mask U is
E | (U << 8) | (1 << 16) | (1 << 17) | (1 << 21) | (1 << 22). -/
theorem pmc_config_layout :
    (∀ c : pmc_config_t,
      pmc_config_t.encode c < 2 ^ 64 ∧
      pmc_config_t.encode c % 2 ^ 8 = c.event_select % 2 ^ 8 ∧
      pmc_config_t.encode c / 2 ^ 8 % 2 ^ 8 = c.unit_mask % 2 ^ 8 ∧
      pmc_config_t.encode c / 2 ^ 16 % 2 = bitVal c.user_mode ∧
      pmc_config_t.encode c / 2 ^ 17 % 2 = bitVal c.operating_system_mode ∧
      pmc_config_t.encode c / 2 ^ 18 % 2 = bitVal c.edge_detect ∧
      pmc_config_t.encode c / 2 ^ 19 % 2 = bitVal c.pin_control ∧
      pmc_config_t.encode c / 2 ^ 20 % 2 = bitVal c.interrupt_enable ∧
      pmc_config_t.encode c / 2 ^ 21 % 2 = bitVal c.any_thread ∧
      pmc_config_t.encode c / 2 ^ 22 % 2 = bitVal c.enable_counters ∧
      pmc_config_t.encode c / 2 ^ 23 % 2 = bitVal c.invert_counter_mask ∧
      pmc_config_t.encode c / 2 ^ 24 % 2 ^ 8 = c.counter_mask % 2 ^ 8 ∧
      pmc_config_t.encode c / 2 ^ 32 = c.reserved % 2 ^ 32) ∧
    ∀ E U : ℕ, E < 2 ^ 8 → U < 2 ^ 8 →
      configValue ⟨E, U⟩ =
        E ||| U <<< 8 ||| 1 <<< 16 ||| 1 <<< 17 ||| 1 <<< 21 ||| 1 <<< 22 := by
  have hb : ∀ b : Bool, bitVal b ≤ 1 := by intro b; cases b <;> simp [bitVal]
  refine ⟨fun c => ?_, fun E U hE hU => ?_⟩
  · obtain ⟨e, u, b1, b2, b3, b4, b5, b6, b7, b8, cm, r⟩ := c
    simp only [pmc_config_t.encode]
    have h1 : e % 2 ^ 8 < 2 ^ 8 := Nat.mod_lt _ (by norm_num)
    have h2 : u % 2 ^ 8 < 2 ^ 8 := Nat.mod_lt _ (by norm_num)
    have h3 : cm % 2 ^ 8 < 2 ^ 8 := Nat.mod_lt _ (by norm_num)
    have h4 : r % 2 ^ 32 < 2 ^ 32 := Nat.mod_lt _ (by norm_num)
    have g1 := hb b1
    have g2 := hb b2
    have g3 := hb b3
    have g4 := hb b4
    have g5 := hb b5
    have g6 := hb b6
    have g7 := hb b7
    have g8 := hb b8
    refine ⟨?_, ?_, ?_, ?_, ?_, ?_, ?_, ?_, ?_, ?_, ?_, ?_, ?_⟩ <;> omega
  · have t16 : (1 : ℕ) <<< 16 = 2 ^ 16 := by rw [Nat.shiftLeft_eq, one_mul]
    have t17 : (1 : ℕ) <<< 17 = 2 ^ 17 := by rw [Nat.shiftLeft_eq, one_mul]
    have t21 : (1 : ℕ) <<< 21 = 2 ^ 21 := by rw [Nat.shiftLeft_eq, one_mul]
    have t22 : (1 : ℕ) <<< 22 = 2 ^ 22 := by rw [Nat.shiftLeft_eq, one_mul]
    have e1 : E ||| U <<< 8 = U * 2 ^ 8 + E := by
      rw [Nat.shiftLeft_eq, Nat.lor_comm, mul_comm U (2 ^ 8)]
      exact (Nat.mul_add_lt_is_or hE U).symm
    rw [e1, t16, t17, t21, t22]
    rw [lor_two_pow_of_lt (show U * 2 ^ 8 + E < 2 ^ 16 by omega)]
    rw [lor_two_pow_of_lt (show U * 2 ^ 8 + E + 2 ^ 16 < 2 ^ 17 by omega)]
    rw [lor_two_pow_of_lt (show U * 2 ^ 8 + E + 2 ^ 16 + 2 ^ 17 < 2 ^ 21 by omega)]
    rw [lor_two_pow_of_lt (show U * 2 ^ 8 + E + 2 ^ 16 + 2 ^ 17 + 2 ^ 21 < 2 ^ 22 by omega)]
    simp only [configValue, pmc_config_t.encode, bitVal, cond_true, cond_false]
    omega

/-- Witness for `pmc_config_layout`: the port-0 event of the table. -/
theorem pmc_config_layout_witness :
    (0xa1 : ℕ) < 2 ^ 8 ∧ (0x01 : ℕ) < 2 ^ 8 ∧
    configValue ⟨0xa1, 0x01⟩ =
      0xa1 ||| 0x01 <<< 8 ||| 1 <<< 16 ||| 1 <<< 17 ||| 1 <<< 21 ||| 1 <<< 22 :=
  ⟨by norm_num, by norm_num,
    pmc_config_layout.2 0xa1 0x01 (by norm_num) (by norm_num)⟩

/-- C8: an MSR channel write fails (throws) exactly when the underlying
transfer accepts fewer than 8 bytes, and a read fails exactly when fewer
than 8 bytes are read; on success the full 8-byte value is transferred
(the write request carries all 8 bytes of `val` at offset `reg`, and the
read returns the whole 8-byte buffer). -/
theorem msr_io_size_spec (pwrite : ℕ → ℕ → ℕ → ℤ) (pread : ℕ → ℕ → ℤ × ℕ)
    (reg val : ℕ) (hw : pwrite reg val 8 ≤ 8) (hr : (pread reg 8).1 ≤ 8) :
    (wrmsr pwrite reg val = Except.error "failed write" ↔ pwrite reg val 8 < 8) ∧
    (wrmsr pwrite reg val = Except.ok () ↔ pwrite reg val 8 = 8) ∧
    (rdmsr pread reg = Except.error "failed read" ↔ (pread reg 8).1 < 8) ∧
    (rdmsr pread reg = Except.ok (pread reg 8).2 ↔ (pread reg 8).1 = 8) := by
  rcases eq_or_ne (pwrite reg val 8) 8 with h1 | h1 <;>
    rcases eq_or_ne (pread reg 8).1 8 with h2 | h2 <;>
      simp [wrmsr, rdmsr, h1, h2] <;> omega

/-- Witness for `msr_io_size_spec`: an 8-byte-accepting transfer. -/
theorem msr_io_size_spec_witness :
    ((8 : ℤ) ≤ 8) ∧ wrmsr (fun _ _ _ => (8 : ℤ)) 0x186 0x6301a1 = Except.ok () :=
  ⟨le_refl 8,
    ((msr_io_size_spec (fun _ _ _ => (8 : ℤ)) (fun _ _ => ((8 : ℤ), 42)) 0x186
        0x6301a1 (by norm_num) (by norm_num)).2.1).2 rfl⟩

/-- C5: execution proceeds past the compatibility gate exactly when the
probed PMC version is at least 3 and (family, model) = (6, 42); on any
violation the trace is the single fatal exit action (exit status
EXIT_FAILURE, message naming the detected family and model) with no
further operation attempted. -/
theorem compatibility_gate_spec :
    (∀ v f md : ℕ, gateFails v f md = false ↔ 3 ≤ v ∧ f = 6 ∧ md = 42) ∧
    ∀ m : machine_t,
      gateFails (pmcinfo m.leaf0a_eax).version_id (cpu_family m.leaf1_eax)
          (cpu_model m.leaf1_eax) = true →
        mainTrace m =
          [.exit_unsupported (cpu_family m.leaf1_eax) (cpu_model m.leaf1_eax)] := by
  constructor
  · intro v f md
    simp only [gateFails, Bool.or_eq_false_iff, decide_eq_false_iff_not, Nat.not_lt,
      bne_eq_false_iff_eq]
    tauto
  · intro m h
    simp only [mainTrace, h, if_true]

/-- Witness for `compatibility_gate_spec`: a family-6 model-58 part is
rejected with a trace naming family 6 and model 58. -/
theorem compatibility_gate_spec_witness :
    gateFails (pmcinfo machineIvb.leaf0a_eax).version_id
        (cpu_family machineIvb.leaf1_eax) (cpu_model machineIvb.leaf1_eax) = true ∧
    mainTrace machineIvb = [.exit_unsupported 6 58] := by
  refine ⟨by decide, ?_⟩
  rw [compatibility_gate_spec.2 machineIvb (by decide)]
  decide

/-- Auxiliary: the fold seeding `num_cores` never drops below its seed. -/
theorem foldl_max_init (l : List cpu_t) :
    ∀ a : ℕ, a ≤ l.foldl (fun a c => max a c.core_id) a := by
  induction l with
  | nil => intro a; exact le_refl a
  | cons hd tl ih =>
    intro a
    exact le_trans (le_max_left a hd.core_id) (ih _)

/-- Auxiliary: the fold computing `num_cores` dominates every core id. -/
theorem foldl_max_mem (l : List cpu_t) :
    ∀ (a : ℕ) (c : cpu_t), c ∈ l →
      c.core_id ≤ l.foldl (fun a c => max a c.core_id) a := by
  induction l with
  | nil => intro a c hc; cases hc
  | cons hd tl ih =>
    intro a c hc
    rcases List.mem_cons.1 hc with h | h
    · subst h
      exact le_trans (le_max_right a c.core_id) (foldl_max_init tl _)
    · exact ih _ c h

/-- Auxiliary: a dense core index is populated exactly when some cpuinfo
record carries it as its core id. -/
theorem corePopulated_iff (cpus : List cpu_t) (j : ℕ) :
    corePopulated cpus j = true ↔ j ∈ cpus.map cpu_t.core_id := by
  simp only [corePopulated, List.any_eq_true, beq_iff_eq, List.mem_map]

/-- C7 (counterexample): with raw core ids 0 and 2, the source allocates
and iterates max+1 = 3 core entries although only 2 distinct core-group
ids exist, and core index 1 is never populated — the claimed dense
renumbering onto [0, num_cores) fails for non-contiguous raw ids. -/
theorem dense_core_indexing_cex :
    num_cores_of cpusGap = 3 ∧ distinctCoreIds cpusGap = 2 ∧
    corePopulated cpusGap 1 = false := by
  decide

/-- C7 (amended): the source allocates max core id + 1 entries; whenever
every allocated index is populated (raw core-group ids contiguous from 0,
as on the sole supported topology), that count equals the number of
distinct core-group ids, every cpuinfo record lands inside the allocated
range, and every allocated core index is populated. -/
theorem dense_core_indexing (cpus : List cpu_t)
    (hcontig : ∀ j < num_cores_of cpus, corePopulated cpus j = true) :
    num_cores_of cpus = distinctCoreIds cpus ∧
    ∀ c ∈ cpus, c.core_id < num_cores_of cpus := by
  have hmem : ∀ c ∈ cpus, c.core_id < num_cores_of cpus := by
    intro c hc
    have h := foldl_max_mem cpus 0 c hc
    unfold num_cores_of
    omega
  refine ⟨?_, hmem⟩
  have hnodup : ((cpus.map cpu_t.core_id).dedup).Nodup := List.nodup_dedup _
  have hfin : ((cpus.map cpu_t.core_id).dedup).toFinset =
      Finset.range (num_cores_of cpus) := by
    ext j
    simp only [List.mem_toFinset, Finset.mem_range, List.mem_dedup]
    constructor
    · intro hj
      rcases List.mem_map.1 hj with ⟨c, hc, rfl⟩
      exact hmem c hc
    · intro hj
      exact (corePopulated_iff cpus j).1 (hcontig j hj)
  have hlen : ((cpus.map cpu_t.core_id).dedup).length =
      ((cpus.map cpu_t.core_id).dedup).toFinset.card :=
    (List.toFinset_card_of_nodup hnodup).symm
  rw [distinctCoreIds, hlen, hfin, Finset.card_range]

/-- Witness for `dense_core_indexing`: two cores, two threads each. -/
theorem dense_core_indexing_witness :
    (∀ j < num_cores_of cpusContig, corePopulated cpusContig j = true) ∧
    num_cores_of cpusContig = distinctCoreIds cpusContig :=
  ⟨by decide, (dense_core_indexing cpusContig (by decide)).1⟩

/-- Auxiliary: the event-select register table is injective on indices
below its length. -/
theorem perfevtsel_inj : ∀ a < 8, ∀ b < 8,
    IA32_PERFEVTSEL.getD a 0 = IA32_PERFEVTSEL.getD b 0 → a = b := by
  decide

/-- Auxiliary: membership in the configure-loop iteration sequence gives
the loop bounds. -/
theorem mem_configurePairs {nc : ℕ} {p : ℕ × ℕ} (hp : p ∈ configurePairs nc) :
    p.1 < nc ∧ p.2 < UOPS_DISPATCHED_PORT.length := by
  rcases List.mem_flatMap.1 hp with ⟨c, hc, hmem⟩
  rcases List.mem_map.1 hmem with ⟨j, hj, rfl⟩
  exact ⟨List.mem_range.1 hc, List.mem_range.1 hj⟩

/-- Auxiliary: when every iteration is in range, the configure loop is a
write per iteration and never aborts. -/
theorem configSteps_eq_map (cpt : ℕ) (coreSize : ℕ → ℕ) (pairs : List (ℕ × ℕ))
    (h : ∀ p ∈ pairs, p.2 / cpt < coreSize p.1) :
    configSteps cpt coreSize pairs = pairs.map fun p => mkEvtselWrite cpt p.1 p.2 := by
  induction pairs with
  | nil => rfl
  | cons hd tl ih =>
    obtain ⟨core, i⟩ := hd
    simp only [configSteps, List.map_cons]
    rw [if_pos (h (core, i) (List.mem_cons_self _ _))]
    rw [ih fun p hp => h p (List.mem_cons_of_mem _ hp)]

/-- Auxiliary: a predicate holding on exactly one element of a range is
counted once. -/
theorem countP_range_unique (L i : ℕ) (hi : i < L) (r : ℕ → Bool)
    (hr : ∀ j < L, (r j = true ↔ j = i)) : (List.range L).countP r = 1 := by
  induction L with
  | zero => omega
  | succ n ih =>
    rw [List.range_succ, List.countP_append]
    by_cases hin : i = n
    · subst hin
      have h0 : (List.range i).countP r = 0 := by
        rw [List.countP_eq_zero]
        intro j hj hrj
        have h2 := List.mem_range.1 hj
        have h1 := (hr j (by omega)).1 hrj
        omega
      have h1 : ([i] : List ℕ).countP r = 1 := by
        simp [List.countP_cons, (hr i (by omega)).2 rfl]
      rw [h0, h1]
    · have hi2 : i < n := by omega
      have h1 : (List.range n).countP r = 1 := ih hi2 fun j hj => hr j (by omega)
      have h0 : ([n] : List ℕ).countP r = 0 := by
        rw [List.countP_eq_zero]
        intro j hj hrj
        rw [List.mem_singleton] at hj
        subst hj
        exact hin ((hr j (by omega)).1 hrj).symm
      rw [h1, h0]

/-- Auxiliary: a predicate holding at exactly one (core, event) iteration
of the configure loop is counted once over the whole iteration sequence. -/
theorem countP_configurePairs (nc : ℕ) (q : ℕ × ℕ → Bool) (core i : ℕ)
    (hcore : core < nc) (hi : i < UOPS_DISPATCHED_PORT.length)
    (hq : ∀ c < nc, ∀ j < UOPS_DISPATCHED_PORT.length,
      (q (c, j) = true ↔ c = core ∧ j = i)) :
    (configurePairs nc).countP q = 1 := by
  induction nc with
  | zero => omega
  | succ n ih =>
    have hsplit : configurePairs (n + 1) =
        configurePairs n ++
          (List.range UOPS_DISPATCHED_PORT.length).map fun j => (n, j) := by
      rw [configurePairs, configurePairs, List.range_succ, List.flatMap_append,
        List.flatMap_singleton]
    rw [hsplit, List.countP_append]
    by_cases hc : core = n
    · have hpre : (configurePairs n).countP q = 0 := by
        rw [List.countP_eq_zero]
        intro p hp hqp
        obtain ⟨c, j⟩ := p
        obtain ⟨h1, h2⟩ := mem_configurePairs hp
        have h3 := (hq c (by omega) j h2).1 hqp
        omega
      have hblock : ((List.range UOPS_DISPATCHED_PORT.length).map
          fun j => (n, j)).countP q = 1 := by
        rw [List.countP_map]
        apply countP_range_unique UOPS_DISPATCHED_PORT.length i hi
        intro j hj
        have h4 := hq n (by omega) j hj
        subst hc
        simpa using h4
      rw [hpre, hblock]
    · have hpre : (configurePairs n).countP q = 1 := by
        apply ih (by omega)
        intro c hc2 j hj
        exact hq c (by omega) j hj
      have hblock : ((List.range UOPS_DISPATCHED_PORT.length).map
          fun j => (n, j)).countP q = 0 := by
        rw [List.countP_map, List.countP_eq_zero]
        intro j hj hqp
        have h5 := (hq n (by omega) j (List.mem_range.1 hj)).1 hqp
        exact hc h5.1.symm
      rw [hpre, hblock]

/-- Auxiliary: field decomposition of the configuration values built for
the six table entries. -/
theorem configValue_fields : ∀ i < UOPS_DISPATCHED_PORT.length,
    portValue i % 2 ^ 8 = (UOPS_DISPATCHED_PORT.getD i ⟨0, 0⟩).event ∧
    portValue i / 2 ^ 8 % 2 ^ 8 = (UOPS_DISPATCHED_PORT.getD i ⟨0, 0⟩).umask ∧
    portValue i / 2 ^ 16 % 2 = 1 ∧
    portValue i / 2 ^ 17 % 2 = 1 ∧
    portValue i / 2 ^ 18 % 2 = 0 ∧
    portValue i / 2 ^ 19 % 2 = 0 ∧
    portValue i / 2 ^ 20 % 2 = 0 ∧
    portValue i / 2 ^ 21 % 2 = 1 ∧
    portValue i / 2 ^ 22 % 2 = 1 ∧
    portValue i / 2 ^ 23 % 2 = 0 ∧
    portValue i / 2 ^ 24 = 0 := by
  decide

/-- C6: under a feasible plan (counters_per_thread positive and every
required logical-processor offset within the core's channel count), the
configure loop performs, for every core and every event index i, exactly
one event-select write to register slot i mod counters_per_thread on the
logical processor at offset i div counters_per_thread; the 64-bit value
written carries the i-th event's event_select (bits [7:0]) and unit_mask
(bits [15:8]), has the user-mode (16), kernel-mode (17), any-thread (21)
and global-enable (22) bits set, and every other field — edge-detect (18),
pin-control (19), interrupt-enable (20), invert (23), counter-mask and
reserved (bits 24 and up) — zero. -/
theorem configure_writes_spec (num_cores cpt : ℕ) (coreSize : ℕ → ℕ)
    (hcpt : 0 < cpt)
    (hfeas : ∀ core < num_cores, ∀ i < UOPS_DISPATCHED_PORT.length,
      i / cpt < coreSize core)
    (core : ℕ) (hcore : core < num_cores)
    (i : ℕ) (hi : i < UOPS_DISPATCHED_PORT.length) :
    ((configSteps cpt coreSize (configurePairs num_cores)).countP fun a =>
        a.isEvtselWriteTo core (i / cpt) (IA32_PERFEVTSEL.getD (i % cpt) 0)) = 1 ∧
    action_t.wrmsr_evtsel core (i / cpt) (IA32_PERFEVTSEL.getD (i % cpt) 0)
        (portValue i) ∈ configSteps cpt coreSize (configurePairs num_cores) ∧
    portValue i % 2 ^ 8 = (UOPS_DISPATCHED_PORT.getD i ⟨0, 0⟩).event ∧
    portValue i / 2 ^ 8 % 2 ^ 8 = (UOPS_DISPATCHED_PORT.getD i ⟨0, 0⟩).umask ∧
    portValue i / 2 ^ 16 % 2 = 1 ∧
    portValue i / 2 ^ 17 % 2 = 1 ∧
    portValue i / 2 ^ 18 % 2 = 0 ∧
    portValue i / 2 ^ 19 % 2 = 0 ∧
    portValue i / 2 ^ 20 % 2 = 0 ∧
    portValue i / 2 ^ 21 % 2 = 1 ∧
    portValue i / 2 ^ 22 % 2 = 1 ∧
    portValue i / 2 ^ 23 % 2 = 0 ∧
    portValue i / 2 ^ 24 = 0 := by
  have hi6 : i < 6 := hi
  have hmap : configSteps cpt coreSize (configurePairs num_cores) =
      (configurePairs num_cores).map fun p => mkEvtselWrite cpt p.1 p.2 :=
    configSteps_eq_map cpt coreSize _ fun p hp =>
      hfeas p.1 (mem_configurePairs hp).1 p.2 (mem_configurePairs hp).2
  refine ⟨?_, ?_, configValue_fields i hi⟩
  · rw [hmap, List.countP_map]
    apply countP_configurePairs num_cores _ core i hcore hi
    intro c hc j hj
    have hj6 : j < 6 := hj
    simp only [Function.comp_apply, mkEvtselWrite, action_t.isEvtselWriteTo,
      Bool.and_eq_true, beq_iff_eq]
    constructor
    · rintro ⟨⟨hcc, hdiv⟩, hreg⟩
      have hmod : j % cpt = i % cpt :=
        perfevtsel_inj _ (lt_of_le_of_lt (Nat.mod_le _ _) (by omega)) _
          (lt_of_le_of_lt (Nat.mod_le _ _) (by omega)) hreg
      have e1 := Nat.div_add_mod j cpt
      have e2 := Nat.div_add_mod i cpt
      rw [hdiv, hmod] at e1
      exact ⟨hcc, by omega⟩
    · rintro ⟨rfl, rfl⟩
      exact ⟨⟨rfl, rfl⟩, rfl⟩
  · rw [hmap]
    exact List.mem_map.2 ⟨(core, i),
      List.mem_flatMap.2 ⟨core, List.mem_range.2 hcore,
        List.mem_map.2 ⟨i, List.mem_range.2 hi, rfl⟩⟩, rfl⟩

/-- Witness for `configure_writes_spec`: one core with two threads,
4 counters per thread, event index 5 landing on offset 1, slot 1. -/
theorem configure_writes_spec_witness :
    (0 : ℕ) < 4 ∧
    (∀ core < 1, ∀ i < UOPS_DISPATCHED_PORT.length, i / 4 < 2) ∧
    ((configSteps 4 (fun _ => 2) (configurePairs 1)).countP fun a =>
        a.isEvtselWriteTo 0 (5 / 4) (IA32_PERFEVTSEL.getD (5 % 4) 0)) = 1 :=
  ⟨by decide, by decide,
    (configure_writes_spec 1 4 (fun _ => 2) (by decide) (by decide) 0 (by decide)
      5 (by decide)).1⟩

/-- C1 (code evidence): on a machine that passes every startup gate but
whose single-threaded cores cannot hold the 6-event plan
(counters_per_thread = 4, threads_per_core = 1), `main` performs no
planning-time feasibility check: it opens an MSR handle, issues four
event-select writes, and then reaches an out-of-range channel index
(undefined behaviour in the source) at event index 4 — the trace contains
no planning-failure exit at all, and the MSR handle is opened before
anything fails. -/
theorem infeasible_plan_trace :
    mainTrace machineOneThread =
      [.open_msr 0,
        .wrmsr_evtsel 0 0 0x186 0x6301a1,
        .wrmsr_evtsel 0 0 0x187 0x6302a1,
        .wrmsr_evtsel 0 0 0x188 0x630ca1,
        .wrmsr_evtsel 0 0 0x189 0x6330a1,
        .index_out_of_bounds 0 1] ∧
    (mainTrace machineOneThread).head? = some (.open_msr 0) ∧
    ∀ f md, action_t.exit_unsupported f md ∉ mainTrace machineOneThread := by
  have htrace : mainTrace machineOneThread =
      [.open_msr 0,
        .wrmsr_evtsel 0 0 0x186 0x6301a1,
        .wrmsr_evtsel 0 0 0x187 0x6302a1,
        .wrmsr_evtsel 0 0 0x188 0x630ca1,
        .wrmsr_evtsel 0 0 0x189 0x6330a1,
        .index_out_of_bounds 0 1] := by decide
  refine ⟨htrace, by rw [htrace]; rfl, ?_⟩
  intro f md hmem
  rw [htrace] at hmem
  simp at hmem

/-- Witness for `tick_delta_spec`: a concrete wrapped pair. -/
theorem tick_delta_spec_witness :
    (3 : ℕ) < 2 ^ 64 ∧ (2 ^ 64 - 2 : ℕ) < 2 ^ 64 ∧
    sub64 3 (2 ^ 64 - 2) = 5 := by
  have h := tick_delta_spec 3 (2 ^ 64 - 2) 1000 (by norm_num) (by norm_num)
  refine ⟨by norm_num, by norm_num, ?_⟩
  have h2 := (h.2.2 (by norm_num)).1
  omega

end CorePortStat
